import Mathlib

/-!
Verification of the pyHabitRPG recurring-task subsystem.

Part 1 embeds the trigger/action framework of `recurring_tasks.py`
(`Sentinel`, `Trigger` subclasses, `run_triggers`) as pure Lean
functions: the external HTTP task API is a function from task ids to
fetch results, the mutable trigger dictionary is an insertion-ordered
association list, and the wall clock is an explicit `now` parameter.

Part 2 models the record-based recurring-task scheduler described in
the specification (record store, per-record tick, jitter intervals);
that component has no implementation under `src/`, so those
definitions are modelled from the spec and are marked as such.
-/

/-- Result of `task.fetch()` in `habitrpg.py` as observed by the
trigger code: the task may be missing upstream (HTTP 404), the HTTP
call may fail with some other status (which the trigger code
re-raises), or the call succeeds and reports the `completed` flag. -/
inductive FetchResult where
  | notFound
  | httpError
  | ok (completed : Bool)
deriving DecidableEq

/-- The `Sentinel` class of `recurring_tasks.py`: an interned named
value with an explicit truth value.  Interning makes `is` comparisons
on sentinels agree with equality of their names, so sentinel identity
is modelled by structural equality. -/
structure Sentinel where
  name : String
  truth : Bool
deriving DecidableEq

/-- The module-level falsy sentinel `WILL_NEVER_TRIGGER`. -/
def WILL_NEVER_TRIGGER : Sentinel := ⟨"Will never trigger", false⟩

/-- A value returned by `Trigger.triggered`: Python lets the method
return either a `bool` or a `Sentinel`. -/
inductive TriggeredValue where
  | asBool (b : Bool)
  | asSentinel (s : Sentinel)
deriving DecidableEq

/-- Python truthiness of a `triggered()` return value: a bool is its
own truth value and a sentinel carries its `_truth` attribute. -/
def TriggeredValue.truthy : TriggeredValue → Bool
  | .asBool b => b
  | .asSentinel s => s.truth

/-- The concrete `Trigger` subclasses of `recurring_tasks.py` that
`run_triggers` can encounter, identified by the data their `__eq__`
and `__hash__` use: the watched task id for the two task triggers and
the target time for `TimeTrigger`.  Times are seconds on an absolute
(timezone-aware) timeline. -/
inductive Trigger where
  | taskCompletionTrigger (taskId : Nat)
  | taskDeletionTrigger (taskId : Nat)
  | timeTrigger (time : Int)
deriving DecidableEq

/-- `triggered()` for each trigger class.
`TaskCompletionTrigger.triggered`: a 404 from `fetch` returns
`WILL_NEVER_TRIGGER`, any other HTTP error is re-raised, otherwise the
task's `completed` flag is returned.
`TaskDeletionTrigger.triggered`: a 404 returns `True`, other HTTP
errors are re-raised, a completed task returns `WILL_NEVER_TRIGGER`,
and otherwise `False`.
`TimeTrigger.triggered`: whether the stored time has arrived (the
naive and timezone-aware branches both compare `self.time <= now`). -/
def Trigger.triggered (api : Nat → FetchResult) (now : Int) :
    Trigger → Except Unit TriggeredValue
  | .taskCompletionTrigger t =>
    match api t with
    | .notFound => .ok (.asSentinel WILL_NEVER_TRIGGER)
    | .httpError => .error ()
    | .ok completed => .ok (.asBool completed)
  | .taskDeletionTrigger t =>
    match api t with
    | .notFound => .ok (.asBool true)
    | .httpError => .error ()
    | .ok completed =>
      if completed then .ok (.asSentinel WILL_NEVER_TRIGGER)
      else .ok (.asBool false)
  | .timeTrigger tm => .ok (.asBool (decide (tm ≤ now)))

/-- Association-list lookup, the model of Python `dict` indexing
(`d[k]` / `k in d`) for insertion-ordered dictionaries. -/
def lookupA {κ ν : Type} [DecidableEq κ] : List (κ × ν) → κ → Option ν
  | [], _ => none
  | (k, v) :: rest, key => if k = key then some v else lookupA rest key

/-- Remove the entry with the given key, the model of `dict.pop` /
`del d[k]` on an insertion-ordered dictionary. -/
def removeA {κ ν : Type} [DecidableEq κ] : List (κ × ν) → κ → List (κ × ν)
  | [], _ => []
  | (k, v) :: rest, key => if k = key then rest else (k, v) :: removeA rest key

/-- Concatenation of a list of lists (used to describe the actions
executed across several fired triggers, in order). -/
def joinAll {α : Type} : List (List α) → List α
  | [] => []
  | xs :: rest => xs ++ joinAll rest

/-- The state `run_triggers` manipulates: the trigger dictionary
(keys in insertion order, values the associated action lists), the
external task API, the current time, the log of actions executed so
far (in execution order), and whether an exception has escaped (a
propagating exception ends the run with the dictionary left in its
partially-updated state). -/
structure TrigState (α : Type) where
  triggers : List (Trigger × List α)
  api : Nat → FetchResult
  now : Int
  executed : List α
  errored : Bool

/-- The semantics of calling an action object: `Action.__call__` is
abstract in the source, so the effect of one action is a parameter of
the embedding.  `logAct` is the action semantics in which calling an
action only records it in the execution log. -/
def logAct {α : Type} (a : α) (s : TrigState α) : TrigState α :=
  { s with executed := s.executed ++ [a] }

/-- `for action in actions: action()` — run the actions in order,
stopping if an exception has escaped. -/
def runActions {α : Type} (doAct : α → TrigState α → TrigState α) :
    List α → TrigState α → TrigState α
  | [], s => s
  | a :: rest, s =>
    if s.errored then s else runActions doAct rest (doAct a s)

/-- One iteration of the `run_triggers` loop body for trigger `t`:
evaluate `t.triggered()`; a raised exception propagates (recorded in
`errored`, ending the run).  A truthy result pops the trigger's
actions from the dictionary (a missing key would raise `KeyError`)
and runs them in order; a result that `is WILL_NEVER_TRIGGER` deletes
the entry without running actions; any other falsy result leaves the
dictionary untouched. -/
def runTriggerStep {α : Type} (doAct : α → TrigState α → TrigState α)
    (t : Trigger) (s : TrigState α) : TrigState α :=
  if s.errored then s else
  match Trigger.triggered s.api s.now t with
  | .error _ => { s with errored := true }
  | .ok v =>
    if v.truthy then
      match lookupA s.triggers t with
      | none => { s with errored := true }
      | some actions =>
        runActions doAct actions { s with triggers := removeA s.triggers t }
    else if v = .asSentinel WILL_NEVER_TRIGGER then
      match lookupA s.triggers t with
      | none => { s with errored := true }
      | some _ => { s with triggers := removeA s.triggers t }
    else s

/-- `run_triggers(triggers)`: iterate over a snapshot of the
dictionary's keys (`triggers.copy()`), applying the loop body to each
key in insertion order. -/
def run_triggers {α : Type} (doAct : α → TrigState α → TrigState α)
    (s : TrigState α) : TrigState α :=
  (s.triggers.map Prod.fst).foldl (fun st t => runTriggerStep doAct t st) s

/-- `triggered()` returned normally (did not raise). -/
def trigOk : Except Unit TriggeredValue → Bool
  | .ok _ => true
  | .error _ => false

/-- The trigger's result is truthy: `run_triggers` pops it and runs
its actions. -/
def firesB (api : Nat → FetchResult) (now : Int) (t : Trigger) : Bool :=
  match Trigger.triggered api now t with
  | .ok v => v.truthy
  | .error _ => false

/-- The trigger's result is the falsy `WILL_NEVER_TRIGGER` sentinel:
`run_triggers` deletes it without running actions. -/
def neverB (api : Nat → FetchResult) (now : Int) (t : Trigger) : Bool :=
  match Trigger.triggered api now t with
  | .ok v => !v.truthy && decide (v = .asSentinel WILL_NEVER_TRIGGER)
  | .error _ => false

/-- The trigger's result is falsy and not the sentinel: the entry
stays in the dictionary unchanged. -/
def staysB (api : Nat → FetchResult) (now : Int) (t : Trigger) : Bool :=
  match Trigger.triggered api now t with
  | .ok v => !v.truthy && !decide (v = .asSentinel WILL_NEVER_TRIGGER)
  | .error _ => true

/-- Looking up a key past entries that do not carry it finds the
first entry that does. -/
theorem lookupA_append_head {ν : Type} (kept : List (Trigger × ν))
    (t : Trigger) (v : ν) (rest : List (Trigger × ν))
    (h : t ∉ kept.map Prod.fst) :
    lookupA (kept ++ (t, v) :: rest) t = some v := by
  induction kept with
  | nil => simp [lookupA]
  | cons p kept ih =>
    obtain ⟨k, w⟩ := p
    simp only [List.map_cons, List.mem_cons] at h
    push_neg at h
    rw [List.cons_append]
    simp only [lookupA]
    rw [if_neg (Ne.symm h.1)]
    exact ih h.2

/-- Removing a key that does not occur among the leading entries
removes the first entry that carries it. -/
theorem removeA_append_head {ν : Type} (kept : List (Trigger × ν))
    (t : Trigger) (v : ν) (rest : List (Trigger × ν))
    (h : t ∉ kept.map Prod.fst) :
    removeA (kept ++ (t, v) :: rest) t = kept ++ rest := by
  induction kept with
  | nil => simp [removeA]
  | cons p kept ih =>
    obtain ⟨k, w⟩ := p
    simp only [List.map_cons, List.mem_cons] at h
    push_neg at h
    rw [List.cons_append]
    simp only [removeA]
    rw [if_neg (Ne.symm h.1)]
    rw [ih h.2, List.cons_append]

/-- Under the log-only action semantics, running an action list just
appends it to the execution log. -/
theorem runActions_logAct {α : Type} (acts : List α) (s : TrigState α)
    (h : s.errored = false) :
    runActions logAct acts s = { s with executed := s.executed ++ acts } := by
  induction acts generalizing s with
  | nil => simp [runActions]
  | cons a rest ih =>
    simp only [runActions, h, if_neg Bool.false_ne_true, logAct]
    rw [ih _ (by simp [h])]
    simp

/-- Once an exception has escaped, the remaining loop iterations do
nothing: the run is over. -/
theorem foldl_step_errored {α : Type} (doAct : α → TrigState α → TrigState α)
    (l : List Trigger) (s : TrigState α) (h : s.errored = true) :
    l.foldl (fun st t => runTriggerStep doAct t st) s = s := by
  induction l with
  | nil => rfl
  | cons t rest ih =>
    rw [List.foldl_cons]
    have hstep : runTriggerStep doAct t s = s := by
      simp [runTriggerStep, h]
    rw [hstep]
    exact ih

/-- Main invariant of the `run_triggers` loop under the log-only
action semantics: processing the keys of a block `l` of entries, in a
dictionary `kept ++ l ++ tail` whose keys of `l` are distinct and do
not occur in `kept`, removes exactly the fired and never-triggering
entries of `l` and logs the actions of the fired entries in order,
provided every trigger check in `l` returns without raising. -/
theorem run_aux {α : Type} (api : Nat → FetchResult) (now : Int)
    (l : List (Trigger × List α)) :
    ∀ (kept : List (Trigger × List α)) (e : List α)
      (tail : List (Trigger × List α)),
    (∀ t ∈ l.map Prod.fst, t ∉ kept.map Prod.fst) →
    (l.map Prod.fst).Nodup →
    (∀ t ∈ l.map Prod.fst, trigOk (Trigger.triggered api now t) = true) →
    (l.map Prod.fst).foldl (fun st t => runTriggerStep logAct t st)
      ⟨kept ++ l ++ tail, api, now, e, false⟩
    = ⟨kept ++ (l.filter fun p => staysB api now p.1) ++ tail, api, now,
       e ++ joinAll ((l.filter fun p => firesB api now p.1).map Prod.snd),
       false⟩ := by
  induction l with
  | nil => intro kept e tail _ _ _; simp [joinAll]
  | cons p l ih =>
    intro kept e tail hdisj hnd hok
    obtain ⟨t, acts⟩ := p
    have hmem : t ∈ ((t, acts) :: l).map Prod.fst := by simp
    have hokt := hok t hmem
    have hdt : t ∉ kept.map Prod.fst := hdisj t hmem
    rw [List.map_cons] at hnd
    have hndc := List.nodup_cons.mp hnd
    have htl : t ∉ l.map Prod.fst := hndc.1
    have hnd' : (l.map Prod.fst).Nodup := hndc.2
    have hdisj' : ∀ t' ∈ l.map Prod.fst, t' ∉ kept.map Prod.fst :=
      fun t' ht' => hdisj t' (by simp [ht'])
    have hok' : ∀ t' ∈ l.map Prod.fst,
        trigOk (Trigger.triggered api now t') = true :=
      fun t' ht' => hok t' (by simp [ht'])
    rw [List.map_cons, List.foldl_cons]
    rcases htv : Trigger.triggered api now t with u | v
    · rw [htv] at hokt; simp [trigOk] at hokt
    · by_cases hv : v.truthy = true
      · have hfires : firesB api now t = true := by simp [firesB, htv, hv]
        have hstays : staysB api now t = false := by simp [staysB, htv, hv]
        have hstep :
            runTriggerStep logAct t
              (⟨kept ++ ((t, acts) :: l) ++ tail, api, now, e, false⟩ :
                TrigState α)
            = ⟨kept ++ l ++ tail, api, now, e ++ acts, false⟩ := by
          simp only [runTriggerStep, htv, hv, if_true, Bool.false_eq_true,
            if_false, List.cons_append, List.append_assoc]
          rw [lookupA_append_head kept t acts (l ++ tail) hdt,
            removeA_append_head kept t acts (l ++ tail) hdt]
          show runActions logAct acts
              (⟨kept ++ (l ++ tail), api, now, e, false⟩ : TrigState α) = _
          rw [runActions_logAct acts
            (⟨kept ++ (l ++ tail), api, now, e, false⟩ : TrigState α) rfl]
        rw [hstep, ih kept (e ++ acts) tail hdisj' hnd' hok']
        simp [List.filter_cons, hstays, hfires, joinAll, List.append_assoc]
      · by_cases hsent : v = TriggeredValue.asSentinel WILL_NEVER_TRIGGER
        · have hfires : firesB api now t = false := by simp [firesB, htv, hv]
          have hstays : staysB api now t = false := by
            simp [staysB, htv, hsent]
          have hstep :
              runTriggerStep logAct t
                (⟨kept ++ ((t, acts) :: l) ++ tail, api, now, e, false⟩ :
                  TrigState α)
              = ⟨kept ++ l ++ tail, api, now, e, false⟩ := by
            simp only [runTriggerStep, htv, hv, hsent, Bool.false_eq_true,
              if_false, eq_self_iff_true, if_true, List.cons_append,
              List.append_assoc]
            rw [lookupA_append_head kept t acts (l ++ tail) hdt,
              removeA_append_head kept t acts (l ++ tail) hdt]
            simp [TriggeredValue.truthy, WILL_NEVER_TRIGGER]
          rw [hstep, ih kept e tail hdisj' hnd' hok']
          simp [List.filter_cons, hstays, hfires]
        · have hfires : firesB api now t = false := by simp [firesB, htv, hv]
          have hstays : staysB api now t = true := by
            simp [staysB, htv, hv, hsent]
          have hstep :
              runTriggerStep logAct t
                (⟨kept ++ ((t, acts) :: l) ++ tail, api, now, e, false⟩ :
                  TrigState α)
              = ⟨kept ++ ((t, acts) :: l) ++ tail, api, now, e, false⟩ := by
            simp [runTriggerStep, htv, hv, hsent]
          have hdisj2 : ∀ t' ∈ l.map Prod.fst,
              t' ∉ (kept ++ [(t, acts)]).map Prod.fst := by
            intro t' ht'
            simp only [List.map_append, List.mem_append]
            push_neg
            refine ⟨hdisj' t' ht', ?_⟩
            intro hcontra
            apply htl
            simp only [List.map_cons, List.map_nil, List.mem_singleton]
              at hcontra
            rw [hcontra] at ht'
            exact ht'
          have hform :
              (kept ++ ((t, acts) :: l) ++ tail : List (Trigger × List α))
              = (kept ++ [(t, acts)]) ++ l ++ tail := by
            simp [List.append_assoc]
          rw [hstep, hform, ih (kept ++ [(t, acts)]) e tail hdisj2 hnd' hok']
          simp [List.filter_cons, hstays, hfires, List.append_assoc]

/-- C10: for every trigger mapping (distinct keys, every check
returning normally, actions modelled as pure log entries),
`run_triggers` treats each trigger's result in exactly one of three
ways: a truthy result removes the trigger and executes all its
associated actions in order, the falsy `WILL_NEVER_TRIGGER` sentinel
removes the trigger without executing any action, and any other
(falsy) result leaves the trigger and its actions in the mapping
unchanged.  The final mapping keeps exactly the unchanged entries and
the execution log is the in-order concatenation of the fired
triggers' action lists. -/
theorem claim_C10_run_triggers_trichotomy {α : Type} (s : TrigState α)
    (hnd : (s.triggers.map Prod.fst).Nodup)
    (hok : ∀ t ∈ s.triggers.map Prod.fst,
      trigOk (Trigger.triggered s.api s.now t) = true)
    (herr : s.errored = false) :
    run_triggers logAct s =
      { s with
        triggers := s.triggers.filter fun p => staysB s.api s.now p.1,
        executed := s.executed ++ joinAll
          ((s.triggers.filter fun p => firesB s.api s.now p.1).map
            Prod.snd) } := by
  obtain ⟨trigs, api, now, e, err⟩ := s
  simp only at hnd hok herr ⊢
  subst herr
  have h := run_aux api now trigs [] e [] (by simp) hnd hok
  simpa [run_triggers] using h

/-- Concrete mapping exercising all three behaviours of C10: a
time trigger whose time has arrived fires and runs its two actions in
order, a time trigger in the future stays untouched, and a completion
trigger whose task was deleted upstream (404) answers with the
`WILL_NEVER_TRIGGER` sentinel and is dropped without actions. -/
def apiC10 : Nat → FetchResult := fun n =>
  if n = 7 then FetchResult.notFound else FetchResult.ok false

/-- Initial trigger mapping for the C10 witness. -/
def stateC10 : TrigState Nat :=
  ⟨[(Trigger.timeTrigger 0, [1, 2]), (Trigger.timeTrigger 5, [3]),
    (Trigger.taskCompletionTrigger 7, [4])], apiC10, 0, [], false⟩

/-- Witness for C10 at the concrete mapping `stateC10`. -/
theorem claim_C10_witness :
    (stateC10.triggers.map Prod.fst).Nodup ∧
    (∀ t ∈ stateC10.triggers.map Prod.fst,
      trigOk (Trigger.triggered stateC10.api stateC10.now t) = true) ∧
    stateC10.errored = false ∧
    run_triggers logAct stateC10 =
      { stateC10 with
        triggers :=
          stateC10.triggers.filter fun p =>
            staysB stateC10.api stateC10.now p.1,
        executed := stateC10.executed ++ joinAll
          ((stateC10.triggers.filter fun p =>
            firesB stateC10.api stateC10.now p.1).map Prod.snd) } :=
  ⟨by decide, by decide, rfl,
    claim_C10_run_triggers_trichotomy stateC10 (by decide) (by decide) rfl⟩

/-- API for the C5 counterexample: every fetch raises a non-404 HTTP
error (e.g. a network/5xx failure). -/
def apiC5 : Nat → FetchResult := fun _ => FetchResult.httpError

/-- Trigger mapping for the C5 counterexample: the first entry's
check raises; the second entry is due to fire (its time has arrived)
and has a pending action. -/
def stateC5 : TrigState Nat :=
  ⟨[(Trigger.taskCompletionTrigger 1, [10]), (Trigger.timeTrigger 0, [11])],
   apiC5, 0, [], false⟩

/-- C5 fails on the code: `run_triggers` has no exception handler, so
the HTTP error raised while checking the first trigger propagates
(`errored`) and the second, due-to-fire trigger of the same tick is
left unprocessed — still in the mapping, its action never executed —
contradicting "the scheduler still processes all other records of the
same tick (the failure is caught and logged, not propagated)". -/
theorem claim_C5_counterexample :
    (run_triggers logAct stateC5).errored = true ∧
    lookupA (run_triggers logAct stateC5).triggers (Trigger.timeTrigger 0)
      = some [11] ∧
    (run_triggers logAct stateC5).executed = [] :=
  ⟨rfl, rfl, rfl⟩

/-- C5 as amended: a failure while checking one trigger propagates
out of `run_triggers` and aborts the tick: triggers earlier in
iteration order are processed normally (fired ones removed, their
actions executed in order), while the failing trigger and every later
one are left in the mapping unprocessed with no actions run, so a
later run retries the same transitions. -/
theorem claim_C5_failure_propagates {α : Type} (s : TrigState α)
    (l1 l2 : List (Trigger × List α)) (tE : Trigger) (actsE : List α)
    (hs : s.triggers = l1 ++ (tE, actsE) :: l2)
    (hnd : (s.triggers.map Prod.fst).Nodup)
    (hok1 : ∀ t ∈ l1.map Prod.fst,
      trigOk (Trigger.triggered s.api s.now t) = true)
    (herrT : trigOk (Trigger.triggered s.api s.now tE) = false)
    (herr : s.errored = false) :
    run_triggers logAct s =
      { s with
        triggers :=
          (l1.filter fun p => staysB s.api s.now p.1) ++ (tE, actsE) :: l2,
        executed := s.executed ++ joinAll
          ((l1.filter fun p => firesB s.api s.now p.1).map Prod.snd),
        errored := true } := by
  obtain ⟨trigs, api, now, e, err⟩ := s
  simp only at hs hnd hok1 herrT herr ⊢
  subst hs
  subst herr
  have hnd1 : (l1.map Prod.fst).Nodup := by
    rw [List.map_append] at hnd
    exact hnd.of_append_left
  rw [run_triggers]
  simp only [List.map_append, List.map_cons]
  rw [List.foldl_append]
  have h1 := run_aux api now l1 [] e ((tE, actsE) :: l2) (by simp) hnd1 hok1
  simp only [List.nil_append] at h1
  rw [h1]
  rw [List.foldl_cons]
  have hstep :
      runTriggerStep logAct tE
        (⟨(l1.filter fun p => staysB api now p.1) ++ (tE, actsE) :: l2,
          api, now,
          e ++ joinAll ((l1.filter fun p => firesB api now p.1).map Prod.snd),
          false⟩ : TrigState α)
      = ⟨(l1.filter fun p => staysB api now p.1) ++ (tE, actsE) :: l2,
          api, now,
          e ++ joinAll ((l1.filter fun p => firesB api now p.1).map Prod.snd),
          true⟩ := by
    rcases htv : Trigger.triggered api now tE with u | v
    · simp [runTriggerStep, htv]
    · rw [htv] at herrT; simp [trigOk] at herrT
  rw [hstep]
  rw [foldl_step_errored _ _ _ rfl]

/-- API for the C5 amended-claim witness: task 1's fetch raises a
non-404 HTTP error, every other fetch succeeds with an incomplete
task. -/
def apiC5w : Nat → FetchResult := fun n =>
  if n = 1 then FetchResult.httpError else FetchResult.ok false

/-- Trigger mapping for the C5 amended-claim witness: a due time
trigger, then the failing completion trigger, then a future time
trigger. -/
def stateC5w : TrigState Nat :=
  ⟨[(Trigger.timeTrigger 0, [21]), (Trigger.taskCompletionTrigger 1, [22]),
    (Trigger.timeTrigger 99, [23])], apiC5w, 0, [], false⟩

/-- Witness for the amended C5 at the concrete mapping `stateC5w`. -/
theorem claim_C5_witness :
    stateC5w.triggers = [(Trigger.timeTrigger 0, [21])] ++
      (Trigger.taskCompletionTrigger 1, [22]) ::
        [(Trigger.timeTrigger 99, [23])] ∧
    (stateC5w.triggers.map Prod.fst).Nodup ∧
    (∀ t ∈ [(Trigger.timeTrigger 0, ([21] : List Nat))].map Prod.fst,
      trigOk (Trigger.triggered stateC5w.api stateC5w.now t) = true) ∧
    trigOk (Trigger.triggered stateC5w.api stateC5w.now
      (Trigger.taskCompletionTrigger 1)) = false ∧
    stateC5w.errored = false ∧
    run_triggers logAct stateC5w =
      { stateC5w with
        triggers :=
          ([(Trigger.timeTrigger 0, [21])].filter fun p =>
            staysB stateC5w.api stateC5w.now p.1) ++
          (Trigger.taskCompletionTrigger 1, [22]) ::
            [(Trigger.timeTrigger 99, [23])],
        executed := stateC5w.executed ++ joinAll
          (([(Trigger.timeTrigger 0, [21])].filter fun p =>
            firesB stateC5w.api stateC5w.now p.1).map Prod.snd),
        errored := true } :=
  ⟨rfl, by decide, by decide, by decide, rfl,
    claim_C5_failure_propagates stateC5w [(Trigger.timeTrigger 0, [21])]
      [(Trigger.timeTrigger 99, [23])] (Trigger.taskCompletionTrigger 1) [22]
      rfl (by decide) (by decide) (by decide) rfl⟩

/-- Modelled from the spec: a timezone-aware timestamp, serialized
with an explicit UTC offset.  `instant` is the absolute time in
seconds on the UTC timeline (what timezone-aware comparisons
compare), `offset` the UTC offset in minutes (preserved by the record
store). -/
structure TimestampTz where
  instant : Int
  offset : Int
deriving DecidableEq

/-- Modelled from the spec: the currently-open occurrence of a
record — task id plus creation timestamp (§3, `current`). -/
structure Occurrence where
  taskId : Nat
  created : TimestampTz
deriving DecidableEq

/-- Modelled from the spec: the most recently closed occurrence
(§3, `previous`) — task id, creation timestamp, and an optional
completion timestamp (absent when the occurrence was deleted rather
than completed). -/
structure PrevOccurrence where
  taskId : Nat
  created : TimestampTz
  completed : Option TimestampTz
deriving DecidableEq

/-- Modelled from the spec: a duration range in whole units
(§3, `repeat` interval policy). -/
structure JitterInterval where
  min : Nat
  max : Nat
deriving DecidableEq

/-- Modelled from the spec: the two interval policies of a record's
`repeat` field. -/
structure RepeatPolicy where
  on_completion : JitterInterval
  on_deletion : JitterInterval
deriving DecidableEq

/-- Modelled from the spec: the time unit interval bounds are
expressed in (§3, `unit`; missing unit normalizes to days). -/
inductive TimeUnit where
  | hours
  | days
deriving DecidableEq

/-- Seconds per unit. -/
def TimeUnit.seconds : TimeUnit → Nat
  | .hours => 3600
  | .days => 86400

/-- Modelled from the spec: one recurring-task record (§3).  The
`repeat` field is named `rep` because `repeat` is a Lean keyword. -/
structure Record where
  title : String
  notes : Option String
  checklist : List String
  current : Option Occurrence
  previous : Option PrevOccurrence
  next : Option TimestampTz
  rep : RepeatPolicy
  unit : TimeUnit
deriving DecidableEq

/-- Modelled from the spec: what `fetch_todo(id)` reports for one
tick (§6): the task may be gone (NotFound/404), the call may fail
transiently (network/5xx), or the task exists and is either still
open or completed at some timestamp. -/
inductive FetchTodo where
  | notFound
  | transientError
  | openTodo
  | completedTodo (completedAt : TimestampTz)
deriving DecidableEq

/-- Modelled from the spec: the jitter draw — a uniform integer pick
over the inclusive range `[min, max]`, realized from a raw random
value `x` as `min + x % (max - min + 1)`. -/
def drawJitter (i : JitterInterval) (x : Nat) : Nat :=
  i.min + x % (i.max - i.min + 1)

/-- The jitter draw lies in `[min, max]` whenever `min ≤ max`. -/
theorem drawJitter_mem (i : JitterInterval) (x : Nat) (h : i.min ≤ i.max) :
    i.min ≤ drawJitter i x ∧ drawJitter i x ≤ i.max := by
  unfold drawJitter
  have hlt : x % (i.max - i.min + 1) < i.max - i.min + 1 :=
    Nat.mod_lt x (by omega)
  omega

/-- Modelled from the spec: errors a record's tick can surface —
a transient API failure (abort this record, retry next tick) and a
violation of the `current`/`next` mutual-exclusion invariant
(raise/flag rather than silently process). -/
inductive TickError where
  | transient
  | invariantViolation
deriving DecidableEq

/-- Modelled from the spec: the to-do created through the API when a
record spawns (§4.2 state 2, §6 `create_todo`): the fresh task id and
creation timestamp the API returns, and the template data sent —
the record's `title`/`notes`/`checklist`. -/
structure NewTodo where
  id : Nat
  createdAt : TimestampTz
  title : String
  notes : Option String
  checklist : List String
deriving DecidableEq

/-- Result of one record's tick: the updated record, plus the to-do
created via the API if this tick spawned one. -/
structure TickOutput where
  record : Record
  spawned : Option NewTodo
deriving DecidableEq

/-- Modelled from the spec: one scheduler tick for one record
(§4.2), the component with no implementation under `src/`.
Inputs model the tick's environment: `api` is `fetch_todo`, `now`
the tick time, `xC`/`xD` the raw random values behind the completion
and deletion jitter draws, and `newId`/`createdAt` what `create_todo`
returns if a spawn happens.
A record holding both `current` and `next` violates the invariant and
is flagged.  Open records (`current` present) are reconciled against
the API: deletion moves `current` to `previous` without a completion
timestamp and schedules `next = now + delay` from the `on_deletion`
interval; completion moves `current` to `previous` with the
completion timestamp and schedules `next = completion_time + delay`
from the `on_completion` interval; a still-open task is left alone.
Awaiting records (`next` present) spawn a new to-do from the record's
template once `now ≥ next` (timezone-aware comparison of instants),
setting `current` to the new id and creation time and clearing
`next`.  Idle records are a no-op. -/
def tickRecord (api : Nat → FetchTodo) (now : TimestampTz)
    (xC xD : Nat) (newId : Nat) (createdAt : TimestampTz)
    (r : Record) : Except TickError TickOutput :=
  match r.current, r.next with
  | some _, some _ => .error .invariantViolation
  | some occ, none =>
    match api occ.taskId with
    | .transientError => .error .transient
    | .notFound =>
      let delay : Nat := drawJitter r.rep.on_deletion xD * r.unit.seconds
      .ok ⟨{ r with
              current := none,
              previous := some ⟨occ.taskId, occ.created, none⟩,
              next := some ⟨now.instant + delay, now.offset⟩ }, none⟩
    | .openTodo => .ok ⟨r, none⟩
    | .completedTodo ct =>
      let delay : Nat := drawJitter r.rep.on_completion xC * r.unit.seconds
      .ok ⟨{ r with
              current := none,
              previous := some ⟨occ.taskId, occ.created, some ct⟩,
              next := some ⟨ct.instant + delay, ct.offset⟩ }, none⟩
  | none, some nxt =>
    if nxt.instant ≤ now.instant then
      .ok ⟨{ r with
              current := some ⟨newId, createdAt⟩,
              next := none },
           some ⟨newId, createdAt, r.title, r.notes, r.checklist⟩⟩
    else .ok ⟨r, none⟩
  | none, none => .ok ⟨r, none⟩

/-- C1 (spec-modelled tick): for a record with `current` present
whose underlying to-do the task API reports as completed, one tick
clears `current`, moves it into `previous` together with the
completion timestamp, and sets `next` to the completion time plus the
jitter delay drawn from the `on_completion` interval converted to
seconds; the resulting `next` instant lies in
`[completion_time + min*unit_seconds, completion_time + max*unit_seconds]`. -/
theorem claim_C1_completion_transition (api : Nat → FetchTodo)
    (now : TimestampTz) (xC xD newId : Nat) (createdAt : TimestampTz)
    (r : Record) (occ : Occurrence) (ct : TimestampTz)
    (hcur : r.current = some occ) (hnext : r.next = none)
    (hapi : api occ.taskId = FetchTodo.completedTodo ct)
    (hmm : r.rep.on_completion.min ≤ r.rep.on_completion.max) :
    tickRecord api now xC xD newId createdAt r =
      .ok ⟨{ r with
              current := none,
              previous := some ⟨occ.taskId, occ.created, some ct⟩,
              next := some ⟨ct.instant +
                (drawJitter r.rep.on_completion xC * r.unit.seconds : Nat),
                ct.offset⟩ }, none⟩ ∧
    ct.instant + (r.rep.on_completion.min * r.unit.seconds : Nat)
      ≤ ct.instant +
        (drawJitter r.rep.on_completion xC * r.unit.seconds : Nat) ∧
    ct.instant + (drawJitter r.rep.on_completion xC * r.unit.seconds : Nat)
      ≤ ct.instant + (r.rep.on_completion.max * r.unit.seconds : Nat) := by
  obtain ⟨ti, no, cl, cur, prev, nxt, rp, un⟩ := r
  simp only at hcur hnext hmm ⊢
  subst hcur
  subst hnext
  have hj := drawJitter_mem rp.on_completion xC hmm
  refine ⟨?_, ?_, ?_⟩
  · simp [tickRecord, hapi]
  · have h1 : rp.on_completion.min * un.seconds
        ≤ drawJitter rp.on_completion xC * un.seconds :=
      Nat.mul_le_mul hj.1 (le_refl _)
    exact add_le_add_left (Nat.cast_le.mpr h1) _
  · have h2 : drawJitter rp.on_completion xC * un.seconds
        ≤ rp.on_completion.max * un.seconds :=
      Nat.mul_le_mul hj.2 (le_refl _)
    exact add_le_add_left (Nat.cast_le.mpr h2) _

/-- Concrete record for the C1 witness. -/
def rC1 : Record :=
  ⟨"water plants", some "note", ["leaf", "stem"],
    some ⟨5, ⟨100, 60⟩⟩, none, none, ⟨⟨1, 3⟩, ⟨2, 4⟩⟩, TimeUnit.hours⟩

/-- API for the C1 witness: every task is reported completed at
instant 200 with a UTC offset of 30 minutes. -/
def apiC1 : Nat → FetchTodo := fun _ => FetchTodo.completedTodo ⟨200, 30⟩

/-- Witness for C1 at the concrete record `rC1`. -/
theorem claim_C1_witness :
    rC1.current = some ⟨5, ⟨100, 60⟩⟩ ∧
    rC1.next = none ∧
    apiC1 5 = FetchTodo.completedTodo ⟨200, 30⟩ ∧
    rC1.rep.on_completion.min ≤ rC1.rep.on_completion.max ∧
    (tickRecord apiC1 ⟨1000, 0⟩ 9 0 77 ⟨1000, 0⟩ rC1 =
      .ok ⟨{ rC1 with
              current := none,
              previous := some ⟨5, ⟨100, 60⟩, some ⟨200, 30⟩⟩,
              next := some ⟨(200 : Int) +
                (drawJitter rC1.rep.on_completion 9 * rC1.unit.seconds : Nat),
                30⟩ }, none⟩ ∧
      (200 : Int) + (rC1.rep.on_completion.min * rC1.unit.seconds : Nat)
        ≤ (200 : Int) +
          (drawJitter rC1.rep.on_completion 9 * rC1.unit.seconds : Nat) ∧
      (200 : Int) +
          (drawJitter rC1.rep.on_completion 9 * rC1.unit.seconds : Nat)
        ≤ (200 : Int) +
          (rC1.rep.on_completion.max * rC1.unit.seconds : Nat)) :=
  ⟨rfl, rfl, rfl, by decide,
    claim_C1_completion_transition apiC1 ⟨1000, 0⟩ 9 0 77 ⟨1000, 0⟩ rC1
      ⟨5, ⟨100, 60⟩⟩ ⟨200, 30⟩ rfl rfl rfl (by decide)⟩

/-- C2 (spec-modelled tick): for a record with `current` present
whose underlying to-do no longer exists upstream (NotFound/404), one
tick treats this as a transition, not a failure: the result is `.ok`,
`current` is cleared and moved into `previous` without a completion
timestamp, and `next = now + delay` with the delay drawn from the
`on_deletion` interval converted to seconds; the resulting `next`
instant lies in `[now + min*unit_seconds, now + max*unit_seconds]`. -/
theorem claim_C2_deletion_transition (api : Nat → FetchTodo)
    (now : TimestampTz) (xC xD newId : Nat) (createdAt : TimestampTz)
    (r : Record) (occ : Occurrence)
    (hcur : r.current = some occ) (hnext : r.next = none)
    (hapi : api occ.taskId = FetchTodo.notFound)
    (hmm : r.rep.on_deletion.min ≤ r.rep.on_deletion.max) :
    tickRecord api now xC xD newId createdAt r =
      .ok ⟨{ r with
              current := none,
              previous := some ⟨occ.taskId, occ.created, none⟩,
              next := some ⟨now.instant +
                (drawJitter r.rep.on_deletion xD * r.unit.seconds : Nat),
                now.offset⟩ }, none⟩ ∧
    now.instant + (r.rep.on_deletion.min * r.unit.seconds : Nat)
      ≤ now.instant +
        (drawJitter r.rep.on_deletion xD * r.unit.seconds : Nat) ∧
    now.instant + (drawJitter r.rep.on_deletion xD * r.unit.seconds : Nat)
      ≤ now.instant + (r.rep.on_deletion.max * r.unit.seconds : Nat) := by
  obtain ⟨ti, no, cl, cur, prev, nxt, rp, un⟩ := r
  simp only at hcur hnext hmm ⊢
  subst hcur
  subst hnext
  have hj := drawJitter_mem rp.on_deletion xD hmm
  refine ⟨?_, ?_, ?_⟩
  · simp [tickRecord, hapi]
  · have h1 : rp.on_deletion.min * un.seconds
        ≤ drawJitter rp.on_deletion xD * un.seconds :=
      Nat.mul_le_mul hj.1 (le_refl _)
    exact add_le_add_left (Nat.cast_le.mpr h1) _
  · have h2 : drawJitter rp.on_deletion xD * un.seconds
        ≤ rp.on_deletion.max * un.seconds :=
      Nat.mul_le_mul hj.2 (le_refl _)
    exact add_le_add_left (Nat.cast_le.mpr h2) _

/-- Concrete record for the C2 witness. -/
def rC2 : Record :=
  ⟨"buy milk", none, [], some ⟨8, ⟨50, 0⟩⟩, none, none,
    ⟨⟨1, 3⟩, ⟨2, 4⟩⟩, TimeUnit.days⟩

/-- API for the C2 witness: every task is gone upstream (404). -/
def apiC2 : Nat → FetchTodo := fun _ => FetchTodo.notFound

/-- Witness for C2 at the concrete record `rC2`. -/
theorem claim_C2_witness :
    rC2.current = some ⟨8, ⟨50, 0⟩⟩ ∧
    rC2.next = none ∧
    apiC2 8 = FetchTodo.notFound ∧
    rC2.rep.on_deletion.min ≤ rC2.rep.on_deletion.max ∧
    (tickRecord apiC2 ⟨500, 120⟩ 0 7 33 ⟨500, 120⟩ rC2 =
      .ok ⟨{ rC2 with
              current := none,
              previous := some ⟨8, ⟨50, 0⟩, none⟩,
              next := some ⟨(500 : Int) +
                (drawJitter rC2.rep.on_deletion 7 * rC2.unit.seconds : Nat),
                120⟩ }, none⟩ ∧
      (500 : Int) + (rC2.rep.on_deletion.min * rC2.unit.seconds : Nat)
        ≤ (500 : Int) +
          (drawJitter rC2.rep.on_deletion 7 * rC2.unit.seconds : Nat) ∧
      (500 : Int) +
          (drawJitter rC2.rep.on_deletion 7 * rC2.unit.seconds : Nat)
        ≤ (500 : Int) +
          (rC2.rep.on_deletion.max * rC2.unit.seconds : Nat)) :=
  ⟨rfl, rfl, rfl, by decide,
    claim_C2_deletion_transition apiC2 ⟨500, 120⟩ 0 7 33 ⟨500, 120⟩ rC2
      ⟨8, ⟨50, 0⟩⟩ rfl rfl rfl (by decide)⟩

/-- C3 (spec-modelled tick): for an Awaiting record (`current`
absent, `next` present), if `next` has arrived (timezone-aware
comparison of instants), one tick creates a new to-do via the API
from the record's `title`/`notes`/`checklist`, sets `current` to the
new task id and creation time, and clears `next`; if `next` is still
in the future, the record is left unchanged and nothing is spawned. -/
theorem claim_C3_spawn_when_due (api : Nat → FetchTodo)
    (now : TimestampTz) (xC xD newId : Nat) (createdAt : TimestampTz)
    (r : Record) (nxt : TimestampTz)
    (hcur : r.current = none) (hnext : r.next = some nxt) :
    (nxt.instant ≤ now.instant →
      tickRecord api now xC xD newId createdAt r =
        .ok ⟨{ r with current := some ⟨newId, createdAt⟩, next := none },
             some ⟨newId, createdAt, r.title, r.notes, r.checklist⟩⟩) ∧
    (now.instant < nxt.instant →
      tickRecord api now xC xD newId createdAt r = .ok ⟨r, none⟩) := by
  obtain ⟨ti, no, cl, cur, prev, nx, rp, un⟩ := r
  simp only at hcur hnext ⊢
  subst hcur
  subst hnext
  constructor
  · intro h
    simp [tickRecord, h]
  · intro h
    simp [tickRecord]
    omega

/-- Concrete Awaiting record for the C3 witness, due at instant 0. -/
def rC3 : Record :=
  ⟨"file taxes", some "w2", ["gather", "file"], none, none,
    some ⟨0, -300⟩, ⟨⟨1, 2⟩, ⟨1, 2⟩⟩, TimeUnit.days⟩

/-- API for the C3 witness (irrelevant to the Awaiting branch). -/
def apiC3 : Nat → FetchTodo := fun _ => FetchTodo.openTodo

/-- Witness for C3 at the concrete record `rC3`, ticked at instant
86400 (past due, so the spawn branch is exercised). -/
theorem claim_C3_witness :
    rC3.current = none ∧
    rC3.next = some ⟨0, -300⟩ ∧
    (((0 : Int) ≤ (86400 : Int)) →
      tickRecord apiC3 ⟨86400, 0⟩ 0 0 42 ⟨86400, 0⟩ rC3 =
        .ok ⟨{ rC3 with current := some ⟨42, ⟨86400, 0⟩⟩, next := none },
             some ⟨42, ⟨86400, 0⟩, rC3.title, rC3.notes, rC3.checklist⟩⟩) ∧
    (((86400 : Int) < (0 : Int)) →
      tickRecord apiC3 ⟨86400, 0⟩ 0 0 42 ⟨86400, 0⟩ rC3 = .ok ⟨rC3, none⟩) :=
  ⟨rfl, rfl,
    (claim_C3_spawn_when_due apiC3 ⟨86400, 0⟩ 0 0 42 ⟨86400, 0⟩ rC3
      ⟨0, -300⟩ rfl rfl).1,
    (claim_C3_spawn_when_due apiC3 ⟨86400, 0⟩ 0 0 42 ⟨86400, 0⟩ rC3
      ⟨0, -300⟩ rfl rfl).2⟩

/-- Modelled from the spec: the record invariant — a record must
never hold both `current` and `next` simultaneously. -/
def recordInv (r : Record) : Bool :=
  !(r.current.isSome && r.next.isSome)

/-- C4 (spec-modelled tick): mutual exclusion of `current`/`next` is
preserved by the tick.  Whenever a tick completes normally, the input
record satisfied the invariant (a violating record is never silently
processed: it is flagged with `.error .invariantViolation`, so it
cannot reach `.ok`), the output record satisfies the invariant again,
and a new occurrence is spawned only when `current` was absent and
`next` was present with its time arrived. -/
theorem claim_C4_current_next_exclusive (api : Nat → FetchTodo)
    (now : TimestampTz) (xC xD newId : Nat) (createdAt : TimestampTz)
    (r : Record) (out : TickOutput)
    (hok : tickRecord api now xC xD newId createdAt r = .ok out) :
    recordInv r = true ∧ recordInv out.record = true ∧
    (out.spawned.isSome = true →
      r.current = none ∧ r.next.isSome = true ∧
      r.next.all (fun nxt => decide (nxt.instant ≤ now.instant)) = true) := by
  obtain ⟨ti, no, cl, cur, prev, nxt, rp, un⟩ := r
  rcases cur with _ | occ <;> rcases nxt with _ | nx
  · simp only [tickRecord] at hok
    rcases hok
    refine ⟨by simp [recordInv], by simp [recordInv], by simp⟩
  · simp only [tickRecord] at hok
    by_cases h : nx.instant ≤ now.instant
    · rw [if_pos h] at hok
      rcases hok
      refine ⟨by simp [recordInv], by simp [recordInv], ?_⟩
      intro _
      refine ⟨rfl, rfl, ?_⟩
      simp [Option.all, h]
    · rw [if_neg h] at hok
      rcases hok
      refine ⟨by simp [recordInv], by simp [recordInv], by simp⟩
  · simp only [tickRecord] at hok
    rcases hapi : api occ.taskId with _ | _ | _ | ct <;> rw [hapi] at hok
    · rcases hok
      refine ⟨by simp [recordInv], by simp [recordInv], by simp⟩
    · rcases hok
    · rcases hok
      refine ⟨by simp [recordInv], by simp [recordInv], by simp⟩
    · rcases hok
      refine ⟨by simp [recordInv], by simp [recordInv], by simp⟩
  · simp only [tickRecord] at hok
    rcases hok

/-- Concrete Awaiting record for the C4 witness, with `next` due. -/
def rC4 : Record :=
  ⟨"clean desk", none, [], none, none, some ⟨0, 0⟩,
    ⟨⟨1, 2⟩, ⟨1, 2⟩⟩, TimeUnit.hours⟩

/-- Tick output for the C4 witness: `rC4` spawns task 9. -/
def outC4 : TickOutput :=
  ⟨{ rC4 with current := some ⟨9, ⟨5, 0⟩⟩, next := none },
    some ⟨9, ⟨5, 0⟩, "clean desk", none, []⟩⟩

/-- Witness for C4 at the concrete record `rC4`. -/
theorem claim_C4_witness :
    tickRecord apiC3 ⟨5, 0⟩ 0 0 9 ⟨5, 0⟩ rC4 = .ok outC4 ∧
    (recordInv rC4 = true ∧ recordInv outC4.record = true ∧
      (outC4.spawned.isSome = true →
        rC4.current = none ∧ rC4.next.isSome = true ∧
        rC4.next.all (fun nxt => decide (nxt.instant ≤ (5 : Int))) = true)) :=
  ⟨rfl, claim_C4_current_next_exclusive apiC3 ⟨5, 0⟩ 0 0 9 ⟨5, 0⟩ rC4 outC4 rfl⟩

/-- The all-zero timestamp (UTC epoch). -/
def tsZero : TimestampTz := ⟨0, 0⟩

/-- Record for the C6 counterexample: open occurrence (task 1),
zero-width jitter intervals so the drawn delay is 0. -/
def rC6 : Record :=
  ⟨"t", none, [], some ⟨1, tsZero⟩, none, none,
    ⟨⟨0, 0⟩, ⟨0, 0⟩⟩, TimeUnit.hours⟩

/-- API for the C6 counterexample: task 1 was completed at instant 0
(long before the tick time), every other task is open.  This API is
unchanged between the two tick runs. -/
def apiC6 : Nat → FetchTodo := fun n =>
  if n = 1 then FetchTodo.completedTodo tsZero else FetchTodo.openTodo

/-- State of `rC6` after the first tick: Awaiting with
`next = completion_time + 0 = instant 0`, already in the past. -/
def r1C6 : Record :=
  { rC6 with
    current := none,
    previous := some ⟨1, tsZero, some tsZero⟩,
    next := some tsZero }

/-- State after the second tick: the second run consumes the arrived
`next` and spawns occurrence 2 — a further transition. -/
def r2C6 : Record :=
  { r1C6 with current := some ⟨2, ⟨100, 0⟩⟩, next := none }

/-- C6 fails on the modelled tick: with the external task-API state
unchanged and the tick re-run at the same instant 100, the first tick
moves `rC6` to Awaiting with `next` already in the past (completion
happened longer ago than the drawn delay), so the second tick spawns
a new occurrence instead of being a no-op: the record state after two
runs differs from the state after one run. -/
theorem claim_C6_counterexample :
    tickRecord apiC6 ⟨100, 0⟩ 0 0 2 ⟨100, 0⟩ rC6 = .ok ⟨r1C6, none⟩ ∧
    tickRecord apiC6 ⟨100, 0⟩ 0 0 2 ⟨100, 0⟩ r1C6 =
      .ok ⟨r2C6, some ⟨2, ⟨100, 0⟩, "t", none, []⟩⟩ ∧
    r1C6 ≠ r2C6 :=
  ⟨rfl, rfl, by decide⟩

/-- C6 as amended: running the tick twice in immediate succession
(same tick time, no external task-API change, and the freshly spawned
task — if any — still reported open) is idempotent provided every
`next` present after the first run still lies in the future; when the
first run sets `next` to a time that has already arrived, the second
run legitimately spawns the next occurrence instead of being a
no-op. -/
theorem claim_C6_conditional_idempotence (api : Nat → FetchTodo)
    (now : TimestampTz) (xC xD newId : Nat) (createdAt : TimestampTz)
    (r : Record) (out : TickOutput)
    (h1 : tickRecord api now xC xD newId createdAt r = .ok out)
    (hfut : out.record.next.all
      (fun nxt => decide (now.instant < nxt.instant)) = true)
    (hopen : out.record.current.all
      (fun occ => decide (api occ.taskId = FetchTodo.openTodo)) = true) :
    tickRecord api now xC xD newId createdAt out.record =
      .ok ⟨out.record, none⟩ := by
  obtain ⟨ti, no, cl, cur, prev, nxt, rp, un⟩ := r
  rcases cur with _ | occ <;> rcases nxt with _ | nx
  · simp only [tickRecord] at h1
    rcases h1
    simp [tickRecord]
  · simp only [tickRecord] at h1
    by_cases h : nx.instant ≤ now.instant
    · rw [if_pos h] at h1
      rcases h1
      simp only [Option.all] at hopen
      have hapi : api newId = FetchTodo.openTodo := by simpa using hopen
      simp [tickRecord, hapi]
    · rw [if_neg h] at h1
      rcases h1
      simp only [Option.all] at hfut
      have hlt : now.instant < nx.instant := by simpa using hfut
      simp only [tickRecord]
      rw [if_neg (not_le.mpr hlt)]
  · simp only [tickRecord] at h1
    rcases hapi : api occ.taskId with _ | _ | _ | ct <;> rw [hapi] at h1
    · rcases h1
      simp only [Option.all] at hfut
      have hlt : now.instant <
          now.instant + ((drawJitter rp.on_deletion xD * un.seconds : Nat) : Int) := by
        simpa using hfut
      simp only [tickRecord]
      rw [if_neg (not_le.mpr hlt)]
    · simp at h1
    · rcases h1
      simp [tickRecord, hapi]
    · rcases h1
      simp only [Option.all] at hfut
      have hlt : now.instant <
          ct.instant + ((drawJitter rp.on_completion xC * un.seconds : Nat) : Int) := by
        simpa using hfut
      simp only [tickRecord]
      rw [if_neg (not_le.mpr hlt)]
  · simp only [tickRecord] at h1
    simp at h1

/-- Record for the C6 amended-claim witness: as `rC6` but with a
one-hour jitter interval, so the first tick schedules `next` an hour
after the completion, still in the future at tick time 100. -/
def rC6w : Record :=
  ⟨"t2", none, [], some ⟨1, tsZero⟩, none, none,
    ⟨⟨1, 1⟩, ⟨1, 1⟩⟩, TimeUnit.hours⟩

/-- State of `rC6w` after the first tick: Awaiting with
`next = instant 3600`, still in the future. -/
def out6w : TickOutput :=
  ⟨{ rC6w with
      current := none,
      previous := some ⟨1, tsZero, some tsZero⟩,
      next := some ⟨3600, 0⟩ }, none⟩

/-- Witness for the amended C6 at the concrete record `rC6w`. -/
theorem claim_C6_witness :
    tickRecord apiC6 ⟨100, 0⟩ 0 0 2 ⟨100, 0⟩ rC6w = .ok out6w ∧
    out6w.record.next.all
      (fun nxt => decide ((100 : Int) < nxt.instant)) = true ∧
    out6w.record.current.all
      (fun occ => decide (apiC6 occ.taskId = FetchTodo.openTodo)) = true ∧
    tickRecord apiC6 ⟨100, 0⟩ 0 0 2 ⟨100, 0⟩ out6w.record =
      .ok ⟨out6w.record, none⟩ :=
  ⟨rfl, by decide, by decide,
    claim_C6_conditional_idempotence apiC6 ⟨100, 0⟩ 0 0 2 ⟨100, 0⟩ rC6w
      out6w rfl (by decide) (by decide)⟩

/-- Modelled from the spec: a value of the human-readable
structured-text format the record store uses (§6): scalars (null,
string, integer, timestamp-with-offset), sequences, and string-keyed
mappings. -/
inductive Yaml where
  | nullV
  | strV (s : String)
  | intV (n : Int)
  | tsV (t : TimestampTz)
  | listV (xs : List Yaml)
  | mapV (kvs : List (String × Yaml))

/-- An optional string serializes to null or a string scalar. -/
def optStr : Option String → Yaml
  | none => .nullV
  | some s => .strV s

/-- Serialize the `current` occurrence. -/
def serializeOccurrence (o : Occurrence) : Yaml :=
  .mapV [("id", .intV o.taskId), ("created", .tsV o.created)]

/-- Serialize the `previous` occurrence (optional completion
timestamp serialized as null when absent). -/
def serializePrev (p : PrevOccurrence) : Yaml :=
  .mapV [("id", .intV p.taskId), ("created", .tsV p.created),
    ("completed", match p.completed with
      | none => Yaml.nullV
      | some t => Yaml.tsV t)]

/-- Serialize one interval policy. -/
def serializeInterval (i : JitterInterval) : Yaml :=
  .mapV [("min", .intV i.min), ("max", .intV i.max)]

/-- Serialize the time unit. -/
def serializeUnit : TimeUnit → Yaml
  | .hours => .strV "hours"
  | .days => .strV "days"

/-- An optional occurrence serializes to null or its mapping. -/
def optOcc : Option Occurrence → Yaml
  | none => .nullV
  | some o => serializeOccurrence o

/-- An optional previous occurrence serializes to null or its
mapping. -/
def optPrev : Option PrevOccurrence → Yaml
  | none => .nullV
  | some p => serializePrev p

/-- An optional timestamp serializes to null or a timestamp
scalar. -/
def optTs : Option TimestampTz → Yaml
  | none => .nullV
  | some t => .tsV t

/-- Modelled from the spec: persist a record in the current schema
(§3 field names; timestamps keep their explicit UTC offset). -/
def serializeRecord (r : Record) : Yaml :=
  .mapV [
    ("title", .strV r.title),
    ("notes", optStr r.notes),
    ("checklist", .listV (r.checklist.map Yaml.strV)),
    ("current", optOcc r.current),
    ("previous", optPrev r.previous),
    ("next", optTs r.next),
    ("repeat", .mapV [
      ("on_completion", serializeInterval r.rep.on_completion),
      ("on_deletion", serializeInterval r.rep.on_deletion)]),
    ("unit", serializeUnit r.unit)]

/-- Parse a sequence of string scalars. -/
def parseStrList : List Yaml → Option (List String)
  | [] => some []
  | .strV s :: rest => (parseStrList rest).map (fun l => s :: l)
  | _ => none

/-- Parse a non-negative integer scalar. -/
def parseNat : Yaml → Option Nat
  | .intV n => some n.toNat
  | _ => none

/-- Parse a timestamp scalar (offset preserved). -/
def parseTs : Yaml → Option TimestampTz
  | .tsV t => some t
  | _ => none

/-- Parse an optional timestamp field: a missing key or an explicit
null both normalize to "absent". -/
def parseOptTs : Option Yaml → Option (Option TimestampTz)
  | none => some none
  | some .nullV => some none
  | some (.tsV t) => some (some t)
  | some _ => none

/-- Parse the `notes` field: missing normalizes to null (§4.1). -/
def parseNotes : Option Yaml → Option (Option String)
  | none => some none
  | some .nullV => some none
  | some (.strV s) => some (some s)
  | some _ => none

/-- Parse the `checklist` field: missing normalizes to empty
(§4.1). -/
def parseChecklist : Option Yaml → Option (List String)
  | none => some []
  | some (.listV xs) => parseStrList xs
  | some _ => none

/-- Parse an occurrence mapping. -/
def parseOccurrence : Yaml → Option Occurrence
  | .mapV kvs => do
    let idY ← lookupA kvs "id"
    let i ← parseNat idY
    let cY ← lookupA kvs "created"
    let c ← parseTs cY
    some ⟨i, c⟩
  | _ => none

/-- Parse a previous-occurrence mapping. -/
def parsePrevOccurrence : Yaml → Option PrevOccurrence
  | .mapV kvs => do
    let idY ← lookupA kvs "id"
    let i ← parseNat idY
    let cY ← lookupA kvs "created"
    let c ← parseTs cY
    let cmp ← parseOptTs (lookupA kvs "completed")
    some ⟨i, c, cmp⟩
  | _ => none

/-- Parse the `current` field (missing or null means no open
occurrence). -/
def parseCurrent : Option Yaml → Option (Option Occurrence)
  | none => some none
  | some .nullV => some none
  | some y => (parseOccurrence y).map some

/-- Parse the `previous` field (missing or null means no closed
occurrence on record). -/
def parsePrevious : Option Yaml → Option (Option PrevOccurrence)
  | none => some none
  | some .nullV => some none
  | some y => (parsePrevOccurrence y).map some

/-- Parse one interval mapping. -/
def parseInterval : Yaml → Option JitterInterval
  | .mapV kvs => do
    let mnY ← lookupA kvs "min"
    let mn ← parseNat mnY
    let mxY ← lookupA kvs "max"
    let mx ← parseNat mxY
    some ⟨mn, mx⟩
  | _ => none

/-- Parse the `repeat` field.  The current schema holds
`on_completion`/`on_deletion`; a legacy single-interval shape is
normalized by duplicating the one interval into both policies
(§4.1). -/
def parseRepeat : Option Yaml → Option RepeatPolicy
  | some (.mapV kvs) =>
    match lookupA kvs "on_completion" with
    | some cY => do
      let c ← parseInterval cY
      let dY ← lookupA kvs "on_deletion"
      let d ← parseInterval dY
      some ⟨c, d⟩
    | none => do
      let i ← parseInterval (.mapV kvs)
      some ⟨i, i⟩
  | _ => none

/-- Parse the `unit` field: missing normalizes to days (§4.1). -/
def parseUnit : Option Yaml → Option TimeUnit
  | none => some .days
  | some (.strV s) =>
    if s = "hours" then some .hours
    else if s = "days" then some .days
    else none
  | some _ => none

/-- Modelled from the spec: load one record from its persisted
structured-text value, normalizing older record shapes to the
current schema (§4.1). -/
def parseRecord : Yaml → Option Record
  | .mapV kvs => do
    let tY ← lookupA kvs "title"
    let t ← (match tY with
      | Yaml.strV s => some s
      | _ => none)
    let no ← parseNotes (lookupA kvs "notes")
    let cl ← parseChecklist (lookupA kvs "checklist")
    let cur ← parseCurrent (lookupA kvs "current")
    let prev ← parsePrevious (lookupA kvs "previous")
    let nx ← parseOptTs (lookupA kvs "next")
    let rp ← parseRepeat (lookupA kvs "repeat")
    let un ← parseUnit (lookupA kvs "unit")
    some ⟨t, no, cl, cur, prev, nx, rp, un⟩
  | _ => none

/-- Parsing a serialized string list recovers it exactly. -/
theorem parseStrList_round (xs : List String) :
    parseStrList (xs.map Yaml.strV) = some xs := by
  induction xs with
  | nil => rfl
  | cons x xs ih => simp [parseStrList, ih]

/-- Modelled from the spec: the on-disk state backing one record —
the record's file proper and the temporary file used by the
write-to-temp-then-atomic-rename save (§4.1). -/
structure StoreFile where
  main : Option Yaml
  tmp : Option Yaml

/-- First step of `save`: write the serialized record to the
temporary file. -/
def writeTmp (content : Yaml) (fs : StoreFile) : StoreFile :=
  { fs with tmp := some content }

/-- Second step of `save`: atomically rename the temporary file over
the record's file. -/
def renameTmpToMain (fs : StoreFile) : StoreFile :=
  ⟨fs.tmp, none⟩

/-- Modelled from the spec: `save(dir, id, record)` — write to the
temp file, then atomically rename it over the record file (§4.1). -/
def saveRecord (r : Record) (fs : StoreFile) : StoreFile :=
  renameTmpToMain (writeTmp (serializeRecord r) fs)

/-- Modelled from the spec: `load` for one record — parse the record
file's content, normalizing legacy shapes. -/
def loadRecord (fs : StoreFile) : Option Record :=
  match fs.main with
  | none => none
  | some y => parseRecord y

/-- Modelled from the spec: process one record for a tick and
persist: the record's file is rewritten only when the tick (hence
every API call it made) succeeded; a failed tick leaves the file
untouched (§7). -/
def processRecord (api : Nat → FetchTodo) (now : TimestampTz)
    (xC xD newId : Nat) (createdAt : TimestampTz)
    (r : Record) (fs : StoreFile) : StoreFile :=
  match tickRecord api now xC xD newId createdAt r with
  | .error _ => fs
  | .ok out => saveRecord out.record fs

/-- Round trip for the `notes` field. -/
theorem parseNotes_round (no : Option String) :
    parseNotes (some (optStr no)) = some no := by
  rcases no <;> rfl

/-- Round trip for the `checklist` field. -/
theorem parseChecklist_round (cl : List String) :
    parseChecklist (some (.listV (cl.map Yaml.strV))) = some cl := by
  simp [parseChecklist, parseStrList_round]

/-- Round trip for the `current` field. -/
theorem parseCurrent_round (cur : Option Occurrence) :
    parseCurrent (some (optOcc cur)) = some cur := by
  rcases cur with _ | ⟨i, c⟩ <;>
    simp [parseCurrent, optOcc, serializeOccurrence, parseOccurrence,
      lookupA, parseNat, parseTs, Option.bind, Int.toNat_natCast]

/-- Round trip for the `previous` field. -/
theorem parsePrevious_round (prev : Option PrevOccurrence) :
    parsePrevious (some (optPrev prev)) = some prev := by
  rcases prev with _ | ⟨i, c, _ | pct⟩ <;>
    simp [parsePrevious, optPrev, serializePrev, parsePrevOccurrence,
      lookupA, parseNat, parseTs, parseOptTs, Option.bind,
      Int.toNat_natCast]

/-- Round trip for the `next` field. -/
theorem parseOptTs_round (nx : Option TimestampTz) :
    parseOptTs (some (optTs nx)) = some nx := by
  rcases nx <;> rfl

/-- Round trip for the `repeat` field (current schema, so the legacy
branch is not taken). -/
theorem parseRepeat_round (a b : JitterInterval) :
    parseRepeat (some (.mapV [("on_completion", serializeInterval a),
      ("on_deletion", serializeInterval b)])) = some ⟨a, b⟩ := by
  obtain ⟨amn, amx⟩ := a
  obtain ⟨bmn, bmx⟩ := b
  simp [parseRepeat, serializeInterval, parseInterval, lookupA, parseNat,
    Option.bind, Int.toNat_natCast]

/-- Round trip for the `unit` field. -/
theorem parseUnit_round (un : TimeUnit) :
    parseUnit (some (serializeUnit un)) = some un := by
  rcases un <;> rfl

/-- Parsing back a serialized record recovers every field exactly,
timestamps (with their offsets) included. -/
theorem parse_serialize (r : Record) :
    parseRecord (serializeRecord r) = some r := by
  obtain ⟨ti, no, cl, cur, prev, nx, rp, un⟩ := r
  simp [parseRecord, serializeRecord, lookupA, Option.bind,
    parseNotes_round, parseChecklist_round, parseCurrent_round,
    parsePrevious_round, parseOptTs_round, parseRepeat_round,
    parseUnit_round]

/-- C8 (spec-modelled store): saving a record and loading it back
yields a record equal to the original in every field, including
timestamps equal with their exact original UTC offsets preserved
(timestamps are serialized with the explicit offset and the parser
returns it unchanged). -/
theorem claim_C8_save_load_round_trip (r : Record) (fs : StoreFile) :
    loadRecord (saveRecord r fs) = some r := by
  simp [loadRecord, saveRecord, writeTmp, renameTmpToMain, parse_serialize]

/-- C7 (spec-modelled store): persisting is atomic and gated on tick
success.  First conjunct: at every intermediate point of `save`
(before, between the two steps, after), the record's file holds
either the old content or the fully-new serialized record — never a
mixture.  Second conjunct: when the tick fails (any API call failed
or the invariant was violated), the record's file is left exactly as
it was, so the next tick retries the same transition. -/
theorem claim_C7_atomic_persist (api : Nat → FetchTodo)
    (now : TimestampTz) (xC xD newId : Nat) (createdAt : TimestampTz)
    (r : Record) (fs fs' : StoreFile) (e : TickError) :
    ((fs' = fs ∨ fs' = writeTmp (serializeRecord r) fs ∨
        fs' = saveRecord r fs) →
      fs'.main = fs.main ∨ fs'.main = some (serializeRecord r)) ∧
    (tickRecord api now xC xD newId createdAt r = .error e →
      processRecord api now xC xD newId createdAt r fs = fs) := by
  constructor
  · rintro (rfl | rfl | rfl)
    · exact Or.inl rfl
    · exact Or.inl rfl
    · exact Or.inr rfl
  · intro h
    simp [processRecord, h]

/-- Record for the C7 witness: Open (`current` present), so its
tick calls the API and hits the transient failure. -/
def rC7 : Record :=
  ⟨"pay rent", none, [], some ⟨3, tsZero⟩, none, none,
    ⟨⟨1, 2⟩, ⟨1, 2⟩⟩, TimeUnit.days⟩

/-- API for the C7 witness: every fetch fails transiently. -/
def apiC7 : Nat → FetchTodo := fun _ => FetchTodo.transientError

/-- On-disk state for the C7 witness. -/
def fsC7 : StoreFile := ⟨some (Yaml.strV "old"), none⟩

/-- Witness for C7: the post-rename state holds the new content, and
the transiently-failing tick leaves the file untouched. -/
theorem claim_C7_witness :
    (saveRecord rC7 fsC7 = fsC7 ∨
      saveRecord rC7 fsC7 = writeTmp (serializeRecord rC7) fsC7 ∨
      saveRecord rC7 fsC7 = saveRecord rC7 fsC7) ∧
    ((saveRecord rC7 fsC7).main = fsC7.main ∨
      (saveRecord rC7 fsC7).main = some (serializeRecord rC7)) ∧
    tickRecord apiC7 ⟨0, 0⟩ 0 0 1 tsZero rC7 = .error TickError.transient ∧
    processRecord apiC7 ⟨0, 0⟩ 0 0 1 tsZero rC7 fsC7 = fsC7 :=
  ⟨Or.inr (Or.inr rfl),
    (claim_C7_atomic_persist apiC7 ⟨0, 0⟩ 0 0 1 tsZero rC7 fsC7
      (saveRecord rC7 fsC7) TickError.transient).1 (Or.inr (Or.inr rfl)),
    rfl,
    (claim_C7_atomic_persist apiC7 ⟨0, 0⟩ 0 0 1 tsZero rC7 fsC7
      (saveRecord rC7 fsC7) TickError.transient).2 rfl⟩

/-- The per-user identity map behind tag construction in
`habitrpg.py`: `User.tag_ids` maps tag id codes to tag objects, and
`nextRef` is the allocator for fresh object identities (a Python
object's identity is modelled as a natural number). -/
structure TagTable where
  tag_ids : List (String × Nat)
  nextRef : Nat
deriving DecidableEq

/-- `Tag.__new__(cls, user, id_code)` from `habitrpg.py`: if the id
code is already a key of the user's `tag_ids` table, return the very
same existing object and leave the table untouched; otherwise
allocate a fresh object, record it under the id code, and return
it. -/
def tagNew (st : TagTable) (id_code : String) : Nat × TagTable :=
  match lookupA st.tag_ids id_code with
  | some obj => (obj, st)
  | none =>
    (st.nextRef, ⟨st.tag_ids ++ [(id_code, st.nextRef)], st.nextRef + 1⟩)

/-- Appending a fresh entry makes its key resolvable when the key was
absent before. -/
theorem lookupA_append_fresh {κ ν : Type} [DecidableEq κ]
    (l : List (κ × ν)) (k : κ) (v : ν) (h : lookupA l k = none) :
    lookupA (l ++ [(k, v)]) k = some v := by
  induction l with
  | nil => simp [lookupA]
  | cons p l ih =>
    obtain ⟨k', w⟩ := p
    simp only [lookupA] at h
    by_cases hk : k' = k
    · rw [if_pos hk] at h
      exact absurd h (by simp)
    · rw [if_neg hk] at h
      rw [List.cons_append]
      simp only [lookupA]
      rw [if_neg hk]
      exact ih h

/-- Appending entries preserves every existing association. -/
theorem lookupA_append_keeps {κ ν : Type} [DecidableEq κ]
    (l l2 : List (κ × ν)) (k : κ) (v : ν) (h : lookupA l k = some v) :
    lookupA (l ++ l2) k = some v := by
  induction l with
  | nil => simp [lookupA] at h
  | cons p l ih =>
    obtain ⟨k', w⟩ := p
    simp only [lookupA] at h
    rw [List.cons_append]
    simp only [lookupA]
    by_cases hk : k' = k
    · rw [if_pos hk] at h
      rw [if_pos hk]
      exact h
    · rw [if_neg hk] at h
      rw [if_neg hk]
      exact ih h

/-- C9: tag construction is identity-mapped per user.  Constructing
a tag whose id is already in the user's id-keyed table returns the
very same existing object with the table untouched; every
construction leaves its result recorded in the table under its id;
and constructions never disturb existing associations — so each
(user, tag id) pair maps to at most one tag object throughout a run
(each user owns a separate `tag_ids` table, so users are independent
by construction). -/
theorem claim_C9_tag_identity_map (st : TagTable) (idc idOld : String)
    (rOld : Nat) (hOld : lookupA st.tag_ids idOld = some rOld) :
    tagNew st idOld = (rOld, st) ∧
    lookupA (tagNew st idc).2.tag_ids idc = some (tagNew st idc).1 ∧
    lookupA (tagNew st idc).2.tag_ids idOld = some rOld := by
  refine ⟨by simp [tagNew, hOld], ?_, ?_⟩
  · rcases h : lookupA st.tag_ids idc with _ | obj
    · simp only [tagNew, h]
      exact lookupA_append_fresh st.tag_ids idc st.nextRef h
    · simp [tagNew, h]
  · rcases h : lookupA st.tag_ids idc with _ | obj
    · simp only [tagNew, h]
      exact lookupA_append_keeps st.tag_ids [(idc, st.nextRef)] idOld rOld hOld
    · simp only [tagNew, h]
      exact hOld

/-- Tag table for the C9 witness: one user with one known tag. -/
def tblC9 : TagTable := ⟨[("work", 5)], 6⟩

/-- Witness for C9: re-constructing the known tag returns the stored
object unchanged, and constructing a fresh tag records it while
keeping the old association. -/
theorem claim_C9_witness :
    lookupA tblC9.tag_ids "work" = some 5 ∧
    (tagNew tblC9 "work" = (5, tblC9) ∧
      lookupA (tagNew tblC9 "chores").2.tag_ids "chores"
        = some (tagNew tblC9 "chores").1 ∧
      lookupA (tagNew tblC9 "chores").2.tag_ids "work" = some 5) :=
  ⟨rfl, claim_C9_tag_identity_map tblC9 "chores" "work" 5 rfl⟩
